import Mathlib

/-!
Shallow embedding of the validation engine of `src/utils/validators.py`
(multimodal-medical-assistant): six pure validator functions over dynamically
typed Python values.  Python values are modelled by the inductive type `PyVal`
(covering the shapes the validators inspect: `None`, `bool`, `int`, `str`,
`dict`, `list`); operations that can raise in Python (indexing, `int(...)`
conversion, dict item access) are modelled in `Except PyExc`, and each
validator is a function `PyVal → Except PyExc Bool`, so that totality
("never raises") is a provable statement rather than an assumption.

Character-class note: the embedding models the ASCII fragment of Python's
`re` classes (`\d` as ASCII `0-9`, `\s` as the six ASCII whitespace
characters, `[a-zA-Z]` as ASCII letters).  Python's `\d`/`\s` additionally
match some non-ASCII code points with identical downstream numeric meaning;
no claim in scope distinguishes these.
-/

/-- Model of the Python runtime values the validators can receive:
`None`, booleans, integers, text, dictionaries (association lists keyed by
strings, as every key the code uses is a string literal) and lists. -/
inductive PyVal where
  | none : PyVal
  | bool : Bool → PyVal
  | int : Int → PyVal
  | str : String → PyVal
  | dict : List (String × PyVal) → PyVal
  | list : List PyVal → PyVal

/-- Python exception kinds that the modelled primitive operations can raise. -/
inductive PyExc where
  | valueError : PyExc
  | keyError : PyExc
  | indexError : PyExc
  | typeError : PyExc
deriving DecidableEq

/-- Python truthiness (`bool(x)`): `None`, `False`, `0`, empty text and empty
containers are falsy, everything else truthy. -/
def truthy : PyVal → Bool
  | .none => false
  | .bool b => b
  | .int n => decide (n ≠ 0)
  | .str s => decide (s ≠ "")
  | .dict d => !d.isEmpty
  | .list l => !l.isEmpty

/-- Python `isinstance(x, int)`: true for `int` and also for `bool`, because
`bool` is a subclass of `int` in Python. -/
def pyIsInt : PyVal → Bool
  | .int _ => true
  | .bool _ => true
  | _ => false

/-- Python `isinstance(x, str)`. -/
def pyIsStr : PyVal → Bool
  | .str _ => true
  | _ => false

/-- Numeric value of a Python `int`-kinded value (`True` counts as 1,
`False` as 0); only meaningful after a `pyIsInt` guard, as in the source. -/
def pyToInt : PyVal → Int
  | .int n => n
  | .bool b => if b then 1 else 0
  | _ => 0

/-- ASCII decimal digit test, the model of `re`'s `\d` class (see header). -/
def pyDigit (c : Char) : Bool := 48 ≤ c.toNat && c.toNat ≤ 57

/-- Numeric value of an ASCII digit character, as produced by `int(ch)`. -/
def digitVal (c : Char) : Nat := c.toNat - 48

/-- ASCII letter test, the model of `re`'s `[a-zA-Z]`. -/
def pyAlpha (c : Char) : Bool :=
  (65 ≤ c.toNat && c.toNat ≤ 90) || (97 ≤ c.toNat && c.toNat ≤ 122)

/-- ASCII whitespace, the model of `re`'s `\s` class:
space, tab, newline, carriage return, vertical tab, form feed. -/
def pyWhitespace (c : Char) : Bool :=
  c = ' ' || c = '\t' || c = '\n' || c = '\r' ||
  c = Char.ofNat 11 || c = Char.ofNat 12

/-- Python string indexing `s[i]`, raising `IndexError` out of range. -/
def pyGetItem (l : List Char) (i : Nat) : Except PyExc Char :=
  match l[i]? with
  | some c => Except.ok c
  | Option.none => Except.error PyExc.indexError

/-- Python `int(ch)` on a one-character string: the digit's value, or
`ValueError` when the character is not a digit. -/
def pyIntChar (c : Char) : Except PyExc Nat :=
  if pyDigit c then Except.ok (digitVal c) else Except.error PyExc.valueError

/-- Python `key in d` on a dict, modelled on the association list. -/
def pyDictContains (d : List (String × PyVal)) (k : String) : Bool :=
  d.any (fun kv => kv.1 == k)

/-- Python `d[key]` on a dict: the stored value, or `KeyError` when absent. -/
def pyDictGet (d : List (String × PyVal)) (k : String) : Except PyExc PyVal :=
  match d.find? (fun kv => kv.1 == k) with
  | some kv => Except.ok kv.2
  | Option.none => Except.error PyExc.keyError

/-- Single-quote character, used to build Python `repr` output without
apostrophe literals. -/
def pyQuoteMark : String := String.singleton (Char.ofNat 39)

/-- Backslash character. -/
def pyBackslash : Char := Char.ofNat 92

/-- Escape one character the way Python's `repr` quotes it inside a
single-quoted string (backslash, quote and the common control characters).
Python additionally switches to double quotes when the text holds a single
quote but no double quote, and hex-escapes other unprintables; this
simplified repr is reachable only through container values interpolated by
the f-string of `is_valid_appointment_data`, whose repr output (starting
with a brace or bracket) fails the date-time parse either way. -/
def pyQuoteChar (c : Char) : String :=
  if c = pyBackslash then String.singleton pyBackslash ++ String.singleton pyBackslash
  else if c = Char.ofNat 39 then String.singleton pyBackslash ++ pyQuoteMark
  else if c = '\n' then String.singleton pyBackslash ++ "n"
  else if c = '\r' then String.singleton pyBackslash ++ "r"
  else if c = '\t' then String.singleton pyBackslash ++ "t"
  else String.singleton c

/-- Python `repr` of a text value (see `pyQuoteChar`). -/
def pyQuote (s : String) : String :=
  pyQuoteMark ++ String.join (s.toList.map pyQuoteChar) ++ pyQuoteMark

mutual

/-- Python `repr(x)` over the modelled value universe. -/
def pyRepr : PyVal → String
  | .none => "None"
  | .bool b => if b then "True" else "False"
  | .int n => toString n
  | .str s => pyQuote s
  | .dict d => "\x7b" ++ pyReprEntries d ++ "\x7d"
  | .list l => "[" ++ pyReprItems l ++ "]"

/-- Comma-separated `repr` of dict entries. -/
def pyReprEntries : List (String × PyVal) → String
  | [] => ""
  | [(k, v)] => pyQuote k ++ ": " ++ pyRepr v
  | (k, v) :: rest => pyQuote k ++ ": " ++ pyRepr v ++ ", " ++ pyReprEntries rest

/-- Comma-separated `repr` of list items. -/
def pyReprItems : List PyVal → String
  | [] => ""
  | [v] => pyRepr v
  | v :: rest => pyRepr v ++ ", " ++ pyReprItems rest

end

/-- Python `str(x)`, as performed by f-string interpolation: identity on
text, `repr`-style rendering otherwise (`str` and `repr` agree on `None`,
booleans, integers and containers). -/
def pyStr : PyVal → String
  | .str s => s
  | v => pyRepr v

/-- Characters admitted before the `@` by the email pattern
`[a-zA-Z0-9_.+-]`. -/
def emailLocalChar (c : Char) : Bool :=
  pyAlpha c || pyDigit c || c = '_' || c = '.' || c = '+' || c = '-'

/-- Characters admitted between `@` and the first following dot:
`[a-zA-Z0-9-]`. -/
def emailDomainChar (c : Char) : Bool := pyAlpha c || pyDigit c || c = '-'

/-- Characters admitted after that dot: `[a-zA-Z0-9-.]` (the `-.` pair reads
as the two-codepoint range 45–46, the same set as the literal reading). -/
def emailTailChar (c : Char) : Bool :=
  pyAlpha c || pyDigit c || c = '-' || c = '.'

/-- Split a character list at the first occurrence of `c`: returns the part
strictly before it and the part strictly after it, or nothing when absent. -/
def splitAtFirst (c : Char) : List Char → Option (List Char × List Char)
  | [] => Option.none
  | x :: xs =>
    if x = c then some ([], xs)
    else
      match splitAtFirst c xs with
      | some (p, r) => some (x :: p, r)
      | Option.none => Option.none

/-- Backtracking-faithful matcher for the source pattern
`^[a-zA-Z0-9_.+-]+@[a-zA-Z0-9-]+\.[a-zA-Z0-9-.]+$` under Python `re.match`
semantics.  None of the three classes holds `@`, so the `@` consumed is the
first one of the string; the middle class holds no dot, so the escaped dot
is the first dot after that `@`.  Python's `$` (without `re.MULTILINE`)
matches at the end of the string or just before one final newline, hence one
trailing newline is tolerated after the final class. -/
def emailTailOk (a b t : List Char) : Bool :=
  !a.isEmpty && a.all emailLocalChar && !b.isEmpty && b.all emailDomainChar &&
  !(if t.getLast? = some '\n' then t.dropLast else t).isEmpty &&
  (if t.getLast? = some '\n' then t.dropLast else t).all emailTailChar

/-- Stage after the first `@` has been found: find the first dot of the
remainder and check the three class runs. -/
def emailRest (a r : List Char) : Bool :=
  match splitAtFirst '.' r with
  | some (b, t) => emailTailOk a b t
  | Option.none => false

/-- Entry point of the matcher: split at the first `@`. -/
def emailRegexMatch (l : List Char) : Bool :=
  match splitAtFirst '@' l with
  | some (a, r) => emailRest a r
  | Option.none => false

/-- Translation of `is_valid_email` (validators.py lines 10-24): falsy or
non-text input is rejected, otherwise the anchored regex decides. -/
def is_valid_email : PyVal → Except PyExc Bool
  | .str s =>
    if s = "" then Except.ok false
    else Except.ok (emailRegexMatch s.toList)
  | _ => Except.ok false

/-- Partial sums of the CPF weighted digit sum: `cpfSum cpf i k` models
`sum(int(cpf[num]) * ((i + 1) - num) for num in range(0, k))`, with the
indexing and `int` conversion as raising operations. -/
def cpfSum (cpf : List Char) (i : Nat) : Nat → Except PyExc Nat
  | 0 => Except.ok 0
  | k + 1 =>
    match cpfSum cpf i k with
    | Except.ok acc =>
      match pyGetItem cpf k with
      | Except.ok c =>
        match pyIntChar c with
        | Except.ok d => Except.ok (acc + d * ((i + 1) - k))
        | Except.error e => Except.error e
      | Except.error e => Except.error e
    | Except.error e => Except.error e

/-- One iteration of the CPF check-digit loop at position `i`: the weighted
sum over positions below `i`, then `digit = ((value * 10) % 11) % 10`,
compared with position `i` itself. -/
def cpfCheckAt (cpf : List Char) (i : Nat) : Except PyExc Bool :=
  match cpfSum cpf i i with
  | Except.ok value =>
    match pyGetItem cpf i with
    | Except.ok c =>
      match pyIntChar c with
      | Except.ok d => Except.ok (decide (((value * 10) % 11) % 10 = d))
      | Except.error e => Except.error e
    | Except.error e => Except.error e
  | Except.error e => Except.error e

/-- Translation of `is_valid_cpf` (validators.py lines 27-58): guard, strip
non-digits, length-11 check, repeated-digit rejection
(`cpf == cpf[0] * 11`), then the two check digits at positions 9 and 10. -/
def cpfCore (cpf : List Char) : Except PyExc Bool :=
  if cpf.length ≠ 11 then Except.ok false
  else
    match pyGetItem cpf 0 with
    | Except.ok c0 =>
      if cpf = List.replicate 11 c0 then Except.ok false
      else
        match cpfCheckAt cpf 9 with
        | Except.ok b9 =>
          if !b9 then Except.ok false
          else
            match cpfCheckAt cpf 10 with
            | Except.ok b10 => if !b10 then Except.ok false else Except.ok true
            | Except.error e => Except.error e
        | Except.error e => Except.error e
    | Except.error e => Except.error e

/-- Guard plus digit stripping of `is_valid_cpf`, handing the stripped digit
string to `cpfCore`. -/
def is_valid_cpf : PyVal → Except PyExc Bool
  | .str s =>
    if s = "" then Except.ok false
    else cpfCore (s.toList.filter pyDigit)
  | _ => Except.ok false

/-- Translation of `is_valid_phone` (validators.py lines 61-78): guard,
strip non-digits, then `len(phone) in [10, 11]`. -/
def is_valid_phone : PyVal → Except PyExc Bool
  | .str s =>
    if s = "" then Except.ok false
    else
      let digits := s.toList.filter pyDigit
      Except.ok (digits.length == 10 || digits.length == 11)
  | _ => Except.ok false

/-- Proleptic-Gregorian leap-year rule used by Python `datetime`. -/
def isLeapYear (y : Nat) : Bool := y % 4 == 0 && (y % 100 != 0 || y % 400 == 0)

/-- Number of days of month `m` of year `y`, as `datetime` enforces. -/
def daysInMonth (y m : Nat) : Nat :=
  if m = 2 then (if isLeapYear y then 29 else 28)
  else if m = 4 ∨ m = 6 ∨ m = 9 ∨ m = 11 then 30
  else 31

/-- Numeric value of a digit run, as `int` reads the captured group. -/
def digitsRunVal (l : List Char) : Nat := l.foldl (fun a c => 10 * a + digitVal c) 0

/-- Final stage of the `strptime` parse: after the whitespace run `ws` and
the hour run `hh` have been split off, the remainder must be a literal colon
and the minute run, which must reach the end of the string (`strptime`
rejects unconverted trailing data).  The hour group is `2[0-3]|[0-1]\d|\d`
(a fully consumed run of length one or two with value at most 23), the
minute group `[0-5]\d|\d` likewise with value at most 59; finally the
`datetime(year, month, day, hour, minute)` constructor demands `1 ≤ year`
(four digits keep it below 10000) and a day within the month's length. -/
def strptimeHourSplit (year mo dayVal : Nat) (ws hh r6 : List Char) : Bool :=
  match r6 with
  | sep :: mi =>
    decide (sep = ':') && decide (1 ≤ ws.length) &&
    decide (1 ≤ hh.length) && decide (hh.length ≤ 2) && decide (digitsRunVal hh ≤ 23) &&
    mi.all pyDigit && decide (1 ≤ mi.length) && decide (mi.length ≤ 2) &&
    decide (digitsRunVal mi ≤ 59) &&
    decide (1 ≤ year) && decide (1 ≤ dayVal) && decide (dayVal ≤ daysInMonth year mo)
  | [] => false

/-- After the whitespace run: split off the hour digit run. -/
def strptimeWsSplit (year mo dayVal : Nat) (ws r5 : List Char) : Bool :=
  strptimeHourSplit year mo dayVal ws (r5.takeWhile pyDigit) (r5.dropWhile pyDigit)

/-- Shared tail of the `strptime` parse after the day field: the format
demands `\s+` (the literal space of `'%Y-%m-%d %H:%M'` is compiled to one
or more whitespace characters), then hour, colon and minute. -/
def strptimeTail (year mo dayVal : Nat) (r4 : List Char) : Bool :=
  strptimeWsSplit year mo dayVal (r4.takeWhile pyWhitespace) (r4.dropWhile pyWhitespace)

/-- The space-prefixed day alternative ` [1-9]` of the `%d` pattern: one
nonzero digit after the already-consumed space. -/
def strptimeDaySpace (year mo : Nat) : List Char → Bool
  | c :: rest =>
    if pyDigit c && decide (1 ≤ digitVal c) then strptimeTail year mo (digitVal c) rest
    else false
  | [] => false

/-- Day field of the `strptime` parse.  CPython compiles `%d` to
`3[0-1]|[1-2]\d|0[1-9]|[1-9]| [1-9]`: either a digit run of length one or
two with value between 1 and 31 (every such run is covered by the first
four alternatives, and the run must be fully consumed because the following
whitespace cannot continue it), or one literal space followed by one
nonzero digit.  The 1-to-31 range is subsumed by the `daysInMonth` bound
checked in `strptimeHourSplit`. -/
def strptimeDay (year mo : Nat) (r3 : List Char) : Bool :=
  match r3 with
  | [] => false
  | c1 :: rest =>
    if c1 = ' ' then strptimeDaySpace year mo rest
    else
      decide (1 ≤ ((c1 :: rest).takeWhile pyDigit).length) &&
      decide (((c1 :: rest).takeWhile pyDigit).length ≤ 2) &&
      strptimeTail year mo (digitsRunVal ((c1 :: rest).takeWhile pyDigit))
        ((c1 :: rest).dropWhile pyDigit)

/-- After the month digit run: the remainder must open with the literal
dash, and the run must be a valid month.  CPython compiles `%m` to
`1[0-2]|0[1-9]|[1-9]`: a digit run of length one or two with value between
1 and 12 — exactly the strings those alternatives accept. -/
def strptimeMonthSplit (year : Nat) (mo r2 : List Char) : Bool :=
  match r2 with
  | sep :: r3 =>
    decide (sep = '-') && decide (1 ≤ mo.length) && decide (mo.length ≤ 2) &&
    decide (1 ≤ digitsRunVal mo) && decide (digitsRunVal mo ≤ 12) &&
    strptimeDay year (digitsRunVal mo) r3
  | [] => false

/-- The month field of the `strptime` parse: split off the digit run. -/
def strptimeFromMonth (year : Nat) (r1 : List Char) : Bool :=
  strptimeMonthSplit year (r1.takeWhile pyDigit) (r1.dropWhile pyDigit)

/-- Verdict of `datetime.strptime(s, '%Y-%m-%d %H:%M')` (true iff it does
not raise `ValueError`): `%Y` is exactly four digits, then the literal dash,
then month, day, whitespace, hour, colon, minute as above. -/
def strptimeYmdHM (l : List Char) : Bool :=
  match l with
  | y1 :: y2 :: y3 :: y4 :: sep :: r1 =>
    decide (sep = '-') &&
    pyDigit y1 && pyDigit y2 && pyDigit y3 && pyDigit y4 &&
    strptimeFromMonth (digitsRunVal [y1, y2, y3, y4]) r1
  | _ => false

/-- Translation of `is_valid_appointment_time` (validators.py lines 81-98):
guard, then `strptime` inside `try/except ValueError`. -/
def is_valid_appointment_time : PyVal → Except PyExc Bool
  | .str s =>
    if s = "" then Except.ok false
    else Except.ok (strptimeYmdHM s.toList)
  | _ => Except.ok false

/-- Translation of `is_valid_patient_data` (validators.py lines 101-128):
dict check, presence of `name`/`age`/`contact`, then
`not isinstance(age, int) or age <= 0`, then
`not name or not isinstance(name, str)`. -/
def is_valid_patient_data : PyVal → Except PyExc Bool
  | .dict d =>
    if pyDictContains d "name" && pyDictContains d "age" && pyDictContains d "contact" then
      match pyDictGet d "age" with
      | Except.ok age =>
        if !pyIsInt age || decide (pyToInt age ≤ 0) then Except.ok false
        else
          match pyDictGet d "name" with
          | Except.ok nm =>
            if !truthy nm || !pyIsStr nm then Except.ok false
            else Except.ok true
          | Except.error e => Except.error e
      | Except.error e => Except.error e
    else Except.ok false
  | _ => Except.ok false

/-- Translation of `is_valid_appointment_data` (validators.py lines
131-152): dict check, presence of `patient_id`/`date`/`time`, then the
f-string `f"{date} {time}"` handed to `is_valid_appointment_time`. -/
def is_valid_appointment_data : PyVal → Except PyExc Bool
  | .dict d =>
    if pyDictContains d "patient_id" && pyDictContains d "date" && pyDictContains d "time" then
      match pyDictGet d "date" with
      | Except.ok dv =>
        match pyDictGet d "time" with
        | Except.ok tv =>
          is_valid_appointment_time (PyVal.str (pyStr dv ++ " " ++ pyStr tv))
        | Except.error e => Except.error e
      | Except.error e => Except.error e
    else Except.ok false
  | _ => Except.ok false

/-- Claim-side language of C5's stated email pattern, written from the
spec's words: one or more characters of the first class, then `@`, then one
or more of the second class, then a literal dot, then one or more of the
third class, anchored at both ends with nothing around. -/
def emailStrictLang (l : List Char) : Prop :=
  ∃ a b c : List Char,
    l = a ++ '@' :: (b ++ '.' :: c) ∧
    a ≠ [] ∧ (∀ x ∈ a, emailLocalChar x = true) ∧
    b ≠ [] ∧ (∀ x ∈ b, emailDomainChar x = true) ∧
    c ≠ [] ∧ (∀ x ∈ c, emailTailChar x = true)

/-- Executable twin of `emailStrictLang` (strictly anchored: no trailing
newline tolerance), used to decide concrete instances. -/
def emailStrictTailOk (a b t : List Char) : Bool :=
  !a.isEmpty && a.all emailLocalChar && !b.isEmpty && b.all emailDomainChar &&
  !t.isEmpty && t.all emailTailChar

/-- Stage after the first `@` of the strict matcher. -/
def emailStrictRest (a r : List Char) : Bool :=
  match splitAtFirst '.' r with
  | some (b, t) => emailStrictTailOk a b t
  | Option.none => false

/-- Entry point of the strict matcher. -/
def emailStrictMatch (l : List Char) : Bool :=
  match splitAtFirst '@' l with
  | some (a, r) => emailStrictRest a r
  | Option.none => false

/-- Claim-side format of C2, written from the spec's words: exactly
`YYYY-MM-DD HH:MM` with a 4-digit year, 2-digit month 01-12, 2-digit day,
one space, 2-digit 24-hour hour and 2-digit minute, nothing around, and the
date calendar-possible. -/
def claimApptFormat (s : String) : Bool :=
  match s.toList with
  | [y1, y2, y3, y4, a, m1, m2, b, d1, d2, sp, h1, h2, c, n1, n2] =>
    ([y1, y2, y3, y4, m1, m2, d1, d2, h1, h2, n1, n2].all pyDigit) &&
    decide (a = '-') && decide (b = '-') && decide (sp = ' ') && decide (c = ':') &&
    decide (1 ≤ digitsRunVal [m1, m2]) && decide (digitsRunVal [m1, m2] ≤ 12) &&
    decide (1 ≤ digitsRunVal [d1, d2]) &&
    decide (digitsRunVal [d1, d2] ≤
      daysInMonth (digitsRunVal [y1, y2, y3, y4]) (digitsRunVal [m1, m2])) &&
    decide (digitsRunVal [h1, h2] ≤ 23) && decide (digitsRunVal [n1, n2] ≤ 59)
  | _ => false

/-- Day field of the amended C2 language: either a digit run of length one
or two, or a space followed by one nonzero digit, in both cases with value
between 1 and the month's length. -/
def dayFieldLang (year mo : Nat) (dpart : List Char) : Prop :=
  ((dpart.length = 1 ∨ dpart.length = 2) ∧ (∀ c ∈ dpart, pyDigit c = true) ∧
    1 ≤ digitsRunVal dpart ∧ digitsRunVal dpart ≤ daysInMonth year mo) ∨
  (∃ c : Char, dpart = [' ', c] ∧ pyDigit c = true ∧ 1 ≤ digitVal c ∧
    digitVal c ≤ daysInMonth year mo)

/-- Amended C2 language: the date-time strings the code accepts, stated
declaratively — 4-digit year of value at least 1, dash, 1-or-2-digit month
1..12, dash, day field, one or more whitespace characters, 1-or-2-digit
hour 0..23, colon, 1-or-2-digit minute 0..59, nothing else around. -/
def apptTimeLang (l : List Char) : Prop :=
  ∃ y mo dpart ws h mi : List Char,
    l = y ++ '-' :: (mo ++ '-' :: (dpart ++ (ws ++ (h ++ ':' :: mi)))) ∧
    y.length = 4 ∧ (∀ c ∈ y, pyDigit c = true) ∧ 1 ≤ digitsRunVal y ∧
    (mo.length = 1 ∨ mo.length = 2) ∧ (∀ c ∈ mo, pyDigit c = true) ∧
    1 ≤ digitsRunVal mo ∧ digitsRunVal mo ≤ 12 ∧
    dayFieldLang (digitsRunVal y) (digitsRunVal mo) dpart ∧
    ws ≠ [] ∧ (∀ c ∈ ws, pyWhitespace c = true) ∧
    (h.length = 1 ∨ h.length = 2) ∧ (∀ c ∈ h, pyDigit c = true) ∧ digitsRunVal h ≤ 23 ∧
    (mi.length = 1 ∨ mi.length = 2) ∧ (∀ c ∈ mi, pyDigit c = true) ∧ digitsRunVal mi ≤ 59

/-! Helper lemmas about the primitive operations. -/

theorem pyDictContains_eq_isSome (d : List (String × PyVal)) (k : String) :
    pyDictContains d k = (d.find? (fun kv => kv.1 == k)).isSome := by
  induction d with
  | nil => rfl
  | cons kv rest ih =>
    cases h : (kv.1 == k) with
    | true =>
      simp [pyDictContains, List.any_cons, h, List.find?_cons_of_pos _ h]
    | false =>
      have hfind := List.find?_cons_of_neg (p := fun kv => kv.1 == k) rest (a := kv)
        (by simp [h])
      simp only [pyDictContains, List.any_cons, h, Bool.false_or, hfind]
      simpa [pyDictContains] using ih

theorem pyDictGet_ok_of_contains {d : List (String × PyVal)} {k : String}
    (h : pyDictContains d k = true) : ∃ v, pyDictGet d k = Except.ok v := by
  rw [pyDictContains_eq_isSome] at h
  rcases Option.isSome_iff_exists.mp h with ⟨kv, hkv⟩
  exact ⟨kv.2, by simp [pyDictGet, hkv]⟩

theorem pyGetItem_ok {l : List Char} {i : Nat} (h : i < l.length) :
    pyGetItem l i = Except.ok (l.getD i ' ') := by
  simp [pyGetItem, List.getElem?_eq_getElem h, List.getD_eq_getElem l ' ' h]

theorem pyIntChar_digit {c : Char} (h : pyDigit c = true) :
    pyIntChar c = Except.ok (digitVal c) := by
  simp [pyIntChar, h]

theorem digitVal_inj {a b : Char} (ha : pyDigit a = true) (hb : pyDigit b = true)
    (h : digitVal a = digitVal b) : a = b := by
  have ha2 : 48 ≤ a.toNat ∧ a.toNat ≤ 57 := by simpa [pyDigit] using ha
  have hb2 : 48 ≤ b.toNat ∧ b.toNat ≤ 57 := by simpa [pyDigit] using hb
  have hn : a.toNat = b.toNat := by unfold digitVal at h; omega
  calc a = Char.ofNat a.toNat := (Char.ofNat_toNat a).symm
  _ = Char.ofNat b.toNat := by rw [hn]
  _ = b := Char.ofNat_toNat b

theorem takeWhile_append_stop {p : Char → Bool} :
    ∀ (xs : List Char) (c : Char) (ys : List Char),
      (∀ x ∈ xs, p x = true) → p c = false →
      (xs ++ c :: ys).takeWhile p = xs ∧ (xs ++ c :: ys).dropWhile p = c :: ys := by
  intro xs
  induction xs with
  | nil =>
    intro c ys _ hc
    simp [List.takeWhile_cons, List.dropWhile_cons, hc]
  | cons x xs ih =>
    intro c ys hall hc
    have hx : p x = true := hall x (List.mem_cons_self x xs)
    have hrest : ∀ y ∈ xs, p y = true := fun y hy => hall y (List.mem_cons_of_mem _ hy)
    rcases ih c ys hrest hc with ⟨h1, h2⟩
    simp [List.takeWhile_cons, List.dropWhile_cons, hx, h1, h2]

theorem splitAtFirst_eq_some {c : Char} :
    ∀ {l p r : List Char}, splitAtFirst c l = some (p, r) → l = p ++ c :: r ∧ c ∉ p := by
  intro l
  induction l with
  | nil => intro p r h; simp [splitAtFirst] at h
  | cons x xs ih =>
    intro p r h
    by_cases hx : x = c
    · subst hx
      simp [splitAtFirst] at h
      rcases h with ⟨hp, hr⟩
      subst hp; subst hr
      simp
    · simp only [splitAtFirst, if_neg hx] at h
      cases hs : splitAtFirst c xs with
      | none => rw [hs] at h; cases h
      | some pr =>
        rcases pr with ⟨p2, r2⟩
        rw [hs] at h
        simp only [Option.some.injEq, Prod.mk.injEq] at h
        rcases h with ⟨hp, hr⟩
        subst hp; subst hr
        rcases ih hs with ⟨he, hnm⟩
        constructor
        · simp [he]
        · intro hmem
          rcases List.mem_cons.mp hmem with h1 | h2
          · exact hx h1.symm
          · exact hnm h2

theorem splitAtFirst_of_eq {c : Char} :
    ∀ (p r : List Char), c ∉ p → splitAtFirst c (p ++ c :: r) = some (p, r) := by
  intro p
  induction p with
  | nil => intro r _; simp [splitAtFirst]
  | cons x xs ih =>
    intro r hc
    have hx : ¬ x = c := fun h => hc (h ▸ List.mem_cons_self x xs)
    have hcx : c ∉ xs := fun h => hc (List.mem_cons_of_mem _ h)
    simp [splitAtFirst, hx, ih r hcx]

theorem pyWhitespace_not_digit {c : Char} (h : pyWhitespace c = true) : pyDigit c = false := by
  simp [pyWhitespace, or_assoc] at h
  rcases h with h | h | h | h | h | h <;> subst h <;> decide

theorem pyDigit_not_whitespace {c : Char} (h : pyDigit c = true) : pyWhitespace c = false := by
  cases hw : pyWhitespace c
  · rfl
  · rw [pyWhitespace_not_digit hw] at h; cases h

theorem pyDigit_ne {c x : Char} (h : pyDigit c = true) (hx : pyDigit x = false) : c ≠ x := by
  intro he; rw [he, hx] at h; cases h

theorem not_mem_of_all_class {p : Char → Bool} {l : List Char} {x : Char}
    (hall : ∀ c ∈ l, p c = true) (hx : p x = false) : x ∉ l := by
  intro hm; rw [hall x hm] at hx; cases hx

/-! Evaluation lemmas for the CPF checksum. -/

theorem cpfSum_ok (cpf : List Char) (hd : ∀ c ∈ cpf, pyDigit c = true) (i : Nat) :
    ∀ k, k ≤ cpf.length →
      cpfSum cpf i k = Except.ok
        (((List.range k).map (fun num => digitVal (cpf.getD num ' ') * ((i + 1) - num))).sum) := by
  intro k
  induction k with
  | zero => intro _; simp [cpfSum]
  | succ n ih =>
    intro hk
    have hn : n < cpf.length := hk
    have hget := pyGetItem_ok hn
    have hdig : pyDigit (cpf.getD n ' ') = true := by
      apply hd
      rw [List.getD_eq_getElem cpf ' ' hn]
      exact List.getElem_mem hn
    rw [cpfSum]
    simp only [ih (Nat.le_of_lt hn), hget, pyIntChar_digit hdig]
    rw [List.range_succ, List.map_append, List.sum_append]
    simp

theorem cpfCheckAt_ok (cpf : List Char) (hd : ∀ c ∈ cpf, pyDigit c = true)
    (i : Nat) (hi : i < cpf.length) :
    cpfCheckAt cpf i = Except.ok (decide
      ((((List.range i).map (fun num => digitVal (cpf.getD num ' ') * ((i + 1) - num))).sum * 10) % 11 % 10
        = digitVal (cpf.getD i ' '))) := by
  have hsum := cpfSum_ok cpf hd i i (Nat.le_of_lt hi)
  have hget := pyGetItem_ok hi
  have hdig : pyDigit (cpf.getD i ' ') = true := by
    apply hd
    rw [List.getD_eq_getElem cpf ' ' hi]
    exact List.getElem_mem hi
  unfold cpfCheckAt
  simp only [hsum, hget, pyIntChar_digit hdig]

theorem cpfCore_eval (l : List Char) (hd : ∀ c ∈ l, pyDigit c = true)
    (hlen : l.length = 11) :
    cpfCore l = Except.ok (
      decide (l ≠ List.replicate 11 (l.getD 0 ' ')) &&
      decide ((((List.range 9).map (fun num =>
          digitVal (l.getD num ' ') * (9 + 1 - num))).sum * 10) % 11 % 10
        = digitVal (l.getD 9 ' ')) &&
      decide ((((List.range 10).map (fun num =>
          digitVal (l.getD num ' ') * (10 + 1 - num))).sum * 10) % 11 % 10
        = digitVal (l.getD 10 ' '))) := by
  have h9 : (9 : Nat) < l.length := by omega
  have h10 : (10 : Nat) < l.length := by omega
  have h0 : (0 : Nat) < l.length := by omega
  have hc9 := cpfCheckAt_ok l hd 9 h9
  have hc10 := cpfCheckAt_ok l hd 10 h10
  unfold cpfCore
  rw [if_neg (not_not_intro hlen)]
  simp only [pyGetItem_ok h0, hc9, hc10]
  by_cases hrep : l = List.replicate 11 (l.getD 0 ' ')
  · rw [if_pos hrep, decide_eq_false (not_not_intro hrep)]
    simp
  · rw [if_neg hrep, decide_eq_true (show l ≠ List.replicate 11 (l.getD 0 ' ') from hrep)]
    cases hd9 : decide ((((List.range 9).map (fun num =>
        digitVal (l.getD num ' ') * (9 + 1 - num))).sum * 10) % 11 % 10
        = digitVal (l.getD 9 ' ')) with
    | false => simp
    | true =>
      cases hd10 : decide ((((List.range 10).map (fun num =>
          digitVal (l.getD num ' ') * (10 + 1 - num))).sum * 10) % 11 % 10
          = digitVal (l.getD 10 ' ')) with
      | false => simp
      | true => simp

/-! Unfolding equations (one per validator, at its guarded entry shape). -/

theorem is_valid_email_str (s : String) :
    is_valid_email (PyVal.str s) =
      if s = "" then Except.ok false else Except.ok (emailRegexMatch s.toList) := rfl

theorem is_valid_cpf_str (s : String) :
    is_valid_cpf (PyVal.str s) =
      if s = "" then Except.ok false else cpfCore (s.toList.filter pyDigit) := rfl

theorem is_valid_phone_str (s : String) :
    is_valid_phone (PyVal.str s) =
      if s = "" then Except.ok false
      else Except.ok ((s.toList.filter pyDigit).length == 10 ||
        (s.toList.filter pyDigit).length == 11) := rfl

theorem is_valid_appointment_time_str (s : String) :
    is_valid_appointment_time (PyVal.str s) =
      if s = "" then Except.ok false else Except.ok (strptimeYmdHM s.toList) := rfl

theorem is_valid_patient_data_dict (d : List (String × PyVal)) :
    is_valid_patient_data (PyVal.dict d) =
      (if pyDictContains d "name" && pyDictContains d "age" && pyDictContains d "contact" then
        match pyDictGet d "age" with
        | Except.ok age =>
          if !pyIsInt age || decide (pyToInt age ≤ 0) then Except.ok false
          else
            match pyDictGet d "name" with
            | Except.ok nm =>
              if !truthy nm || !pyIsStr nm then Except.ok false
              else Except.ok true
            | Except.error e => Except.error e
        | Except.error e => Except.error e
      else Except.ok false) := rfl

theorem is_valid_appointment_data_dict (d : List (String × PyVal)) :
    is_valid_appointment_data (PyVal.dict d) =
      (if pyDictContains d "patient_id" && pyDictContains d "date" && pyDictContains d "time" then
        match pyDictGet d "date" with
        | Except.ok dv =>
          match pyDictGet d "time" with
          | Except.ok tv =>
            is_valid_appointment_time (PyVal.str (pyStr dv ++ " " ++ pyStr tv))
          | Except.error e => Except.error e
        | Except.error e => Except.error e
      else Except.ok false) := rfl

/-! Totality of each validator over the whole value universe. -/

theorem is_valid_email_total (v : PyVal) : ∃ b, is_valid_email v = Except.ok b := by
  cases v
  case str s =>
    by_cases hs : s = ""
    · exact ⟨false, by rw [is_valid_email_str, if_pos hs]⟩
    · exact ⟨emailRegexMatch s.toList, by rw [is_valid_email_str, if_neg hs]⟩
  all_goals exact ⟨false, rfl⟩

theorem is_valid_cpf_total (v : PyVal) : ∃ b, is_valid_cpf v = Except.ok b := by
  cases v
  case str s =>
    by_cases hs : s = ""
    · exact ⟨false, by rw [is_valid_cpf_str, if_pos hs]⟩
    · rw [is_valid_cpf_str, if_neg hs]
      by_cases hlen : (s.toList.filter pyDigit).length = 11
      · exact ⟨_, cpfCore_eval _ (fun c hc => List.of_mem_filter hc) hlen⟩
      · exact ⟨false, by unfold cpfCore; rw [if_pos hlen]⟩
  all_goals exact ⟨false, rfl⟩

theorem is_valid_phone_total (v : PyVal) : ∃ b, is_valid_phone v = Except.ok b := by
  cases v
  case str s =>
    by_cases hs : s = ""
    · exact ⟨false, by rw [is_valid_phone_str, if_pos hs]⟩
    · exact ⟨_, by rw [is_valid_phone_str, if_neg hs]⟩
  all_goals exact ⟨false, rfl⟩

theorem is_valid_appointment_time_total (v : PyVal) :
    ∃ b, is_valid_appointment_time v = Except.ok b := by
  cases v
  case str s =>
    by_cases hs : s = ""
    · exact ⟨false, by rw [is_valid_appointment_time_str, if_pos hs]⟩
    · exact ⟨_, by rw [is_valid_appointment_time_str, if_neg hs]⟩
  all_goals exact ⟨false, rfl⟩

theorem is_valid_patient_data_total (v : PyVal) :
    ∃ b, is_valid_patient_data v = Except.ok b := by
  cases v
  case dict d =>
    rw [is_valid_patient_data_dict]
    by_cases h2 : pyDictContains d "age" = true
    · by_cases h1 : pyDictContains d "name" = true
      · by_cases h3 : pyDictContains d "contact" = true
        · rw [if_pos (by rw [h1, h2, h3]; rfl)]
          obtain ⟨age, hage⟩ := pyDictGet_ok_of_contains h2
          simp only [hage]
          by_cases hbad : (!pyIsInt age || decide (pyToInt age ≤ 0)) = true
          · exact ⟨false, by rw [if_pos hbad]⟩
          · rw [if_neg hbad]
            obtain ⟨nm, hnm⟩ := pyDictGet_ok_of_contains h1
            simp only [hnm]
            by_cases hnm2 : (!truthy nm || !pyIsStr nm) = true
            · exact ⟨false, by rw [if_pos hnm2]⟩
            · exact ⟨true, by rw [if_neg hnm2]⟩
        · refine ⟨false, ?_⟩
          rw [if_neg]
          rw [Bool.eq_false_iff.mpr h3]
          simp
      · refine ⟨false, ?_⟩
        rw [if_neg]
        rw [Bool.eq_false_iff.mpr h1]
        simp
    · refine ⟨false, ?_⟩
      rw [if_neg]
      rw [Bool.eq_false_iff.mpr h2]
      simp
  all_goals exact ⟨false, rfl⟩

theorem is_valid_appointment_data_total (v : PyVal) :
    ∃ b, is_valid_appointment_data v = Except.ok b := by
  cases v
  case dict d =>
    rw [is_valid_appointment_data_dict]
    by_cases h1 : pyDictContains d "patient_id" = true
    · by_cases h2 : pyDictContains d "date" = true
      · by_cases h3 : pyDictContains d "time" = true
        · rw [if_pos (by rw [h1, h2, h3]; rfl)]
          obtain ⟨dv, hdv⟩ := pyDictGet_ok_of_contains h2
          obtain ⟨tv, htv⟩ := pyDictGet_ok_of_contains h3
          simp only [hdv, htv]
          exact is_valid_appointment_time_total _
        · refine ⟨false, ?_⟩
          rw [if_neg]
          rw [Bool.eq_false_iff.mpr h3]
          simp
      · refine ⟨false, ?_⟩
        rw [if_neg]
        rw [Bool.eq_false_iff.mpr h2]
        simp
    · refine ⟨false, ?_⟩
      rw [if_neg]
      rw [Bool.eq_false_iff.mpr h1]
      simp
  all_goals exact ⟨false, rfl⟩

/-- C1: for every input string, `is_valid_cpf` returns true iff after
stripping every non-digit character exactly 11 digits remain, the 11 digits
are not all identical, and for each check position `i ∈ {9, 10}` the digit
at position `i` equals `((value * 10) % 11) % 10` where `value` is the sum
over `num < i` of `digit[num] * ((i + 1) - num)`. -/
theorem C1_cpf_checksum_iff (s : String) :
    is_valid_cpf (PyVal.str s) = Except.ok true ↔
      ((s.toList.filter pyDigit).map digitVal).length = 11 ∧
      ¬ (∀ d ∈ (s.toList.filter pyDigit).map digitVal,
           d = ((s.toList.filter pyDigit).map digitVal).getD 0 0) ∧
      (∀ i, i = 9 ∨ i = 10 →
        ((s.toList.filter pyDigit).map digitVal).getD i 0 =
          ((((List.range i).map (fun num =>
              ((s.toList.filter pyDigit).map digitVal).getD num 0 * ((i + 1) - num))).sum * 10) % 11) % 10) := by
  by_cases hs : s = ""
  · subst hs
    rw [is_valid_cpf_str, if_pos rfl]
    constructor
    · intro h; simp at h
    · rintro ⟨h1, -, -⟩
      rw [show ("" : String).toList = [] from rfl] at h1
      simp at h1
  · rw [is_valid_cpf_str, if_neg hs]
    set l := s.toList.filter pyDigit with hldef
    have hd : ∀ c ∈ l, pyDigit c = true := fun c hc => List.of_mem_filter hc
    by_cases hlen : l.length = 11
    · have bridge : ∀ n, n < l.length → (l.map digitVal).getD n 0 = digitVal (l.getD n ' ') := by
        intro n hn
        rw [List.getD_eq_getElem (l.map digitVal) 0 (by simpa using hn),
          List.getD_eq_getElem l ' ' hn, List.getElem_map]
      have h0lt : 0 < l.length := by omega
      have h0mem : l.getD 0 ' ' ∈ l := by
        rw [List.getD_eq_getElem l ' ' h0lt]; exact List.getElem_mem h0lt
      have hrep_iff : (l ≠ List.replicate 11 (l.getD 0 ' ')) ↔
          ¬ (∀ d ∈ l.map digitVal, d = (l.map digitVal).getD 0 0) := by
        constructor
        · intro hne hall
          apply hne
          rw [List.eq_replicate_iff]
          refine ⟨hlen, ?_⟩
          intro b hb
          apply digitVal_inj (hd b hb) (hd _ h0mem)
          have hbv := hall (digitVal b) (List.mem_map_of_mem digitVal hb)
          rw [hbv, bridge 0 h0lt]
        · intro hnall heq
          apply hnall
          intro d hdm
          rcases List.mem_map.mp hdm with ⟨c, hc, rfl⟩
          have hcc : c = l.getD 0 ' ' := by
            rw [heq] at hc
            exact List.eq_of_mem_replicate hc
          rw [hcc, bridge 0 h0lt]
      have h9_iff : (((l.map digitVal).getD 9 0 =
          (((List.range 9).map (fun num =>
            (l.map digitVal).getD num 0 * (9 + 1 - num))).sum * 10) % 11 % 10)) ↔
          ((((List.range 9).map (fun num =>
            digitVal (l.getD num ' ') * (9 + 1 - num))).sum * 10) % 11 % 10
            = digitVal (l.getD 9 ' ')) := by
        rw [bridge 9 (by omega)]
        rw [show ((List.range 9).map (fun num => (l.map digitVal).getD num 0 * (9 + 1 - num))) =
              ((List.range 9).map (fun num => digitVal (l.getD num ' ') * (9 + 1 - num))) from
          List.map_congr_left (fun num hnum => by
            rw [bridge num (by have := List.mem_range.mp hnum; omega)])]
        exact eq_comm
      have h10_iff : (((l.map digitVal).getD 10 0 =
          (((List.range 10).map (fun num =>
            (l.map digitVal).getD num 0 * (10 + 1 - num))).sum * 10) % 11 % 10)) ↔
          ((((List.range 10).map (fun num =>
            digitVal (l.getD num ' ') * (10 + 1 - num))).sum * 10) % 11 % 10
            = digitVal (l.getD 10 ' ')) := by
        rw [bridge 10 (by omega)]
        rw [show ((List.range 10).map (fun num => (l.map digitVal).getD num 0 * (10 + 1 - num))) =
              ((List.range 10).map (fun num => digitVal (l.getD num ' ') * (10 + 1 - num))) from
          List.map_congr_left (fun num hnum => by
            rw [bridge num (by have := List.mem_range.mp hnum; omega)])]
        exact eq_comm
      rw [cpfCore_eval l hd hlen, Except.ok.injEq]
      simp only [Bool.and_eq_true, decide_eq_true_eq]
      constructor
      · rintro ⟨⟨hA, h9c⟩, h10c⟩
        refine ⟨by simpa using hlen, hrep_iff.mp hA, ?_⟩
        intro i hi
        rcases hi with rfl | rfl
        · exact h9_iff.mpr h9c
        · exact h10_iff.mpr h10c
      · rintro ⟨-, hnall, hforall⟩
        exact ⟨⟨hrep_iff.mpr hnall, h9_iff.mp (hforall 9 (Or.inl rfl))⟩,
          h10_iff.mp (hforall 10 (Or.inr rfl))⟩
    · constructor
      · intro h
        exfalso
        have : cpfCore l = Except.ok false := by unfold cpfCore; rw [if_pos hlen]
        rw [this] at h
        simp at h
      · rintro ⟨h1, -, -⟩
        exact absurd (by simpa using h1) hlen

/-- C6: every string whose digit content is 11 copies of one digit is
rejected by `is_valid_cpf`, regardless of the checksum. -/
theorem C6_cpf_repeated_rejected (s : String) (c : Char)
    (h : s.toList.filter pyDigit = List.replicate 11 c) :
    is_valid_cpf (PyVal.str s) = Except.ok false := by
  have hs : ¬ s = "" := by
    intro hs0
    rw [hs0] at h
    have := congrArg List.length h
    simp [show ("" : String).toList = [] from rfl] at this
  have hlen : (s.toList.filter pyDigit).length = 11 := by rw [h]; simp
  rw [is_valid_cpf_str, if_neg hs,
    cpfCore_eval _ (fun x hx => List.of_mem_filter hx) hlen]
  have hget : (s.toList.filter pyDigit).getD 0 ' ' = c := by
    rw [h, List.getD_eq_getElem _ ' ' (by simp), List.getElem_replicate]
  have hne : decide (s.toList.filter pyDigit ≠
      List.replicate 11 ((s.toList.filter pyDigit).getD 0 ' ')) = false := by
    rw [hget]
    exact decide_eq_false (not_not_intro h)
  rw [hne]
  simp

/-- Witness for C6 at the concrete all-ones CPF. -/
theorem C6_witness :
    "111.111.111-11".toList.filter pyDigit = List.replicate 11 '1' ∧
    is_valid_cpf (PyVal.str "111.111.111-11") = Except.ok false := by
  constructor
  · decide
  · exact C6_cpf_repeated_rejected "111.111.111-11" '1' (by decide)

/-- C3: every one of the six validators is total — on any modelled Python
value it returns a boolean verdict and never raises an exception. -/
theorem C3_validators_total (v : PyVal) :
    (∃ b, is_valid_email v = Except.ok b) ∧
    (∃ b, is_valid_cpf v = Except.ok b) ∧
    (∃ b, is_valid_phone v = Except.ok b) ∧
    (∃ b, is_valid_appointment_time v = Except.ok b) ∧
    (∃ b, is_valid_patient_data v = Except.ok b) ∧
    (∃ b, is_valid_appointment_data v = Except.ok b) :=
  ⟨is_valid_email_total v, is_valid_cpf_total v, is_valid_phone_total v,
   is_valid_appointment_time_total v, is_valid_patient_data_total v,
   is_valid_appointment_data_total v⟩

/-- C8: `is_valid_phone` accepts exactly the non-empty text values whose
digit content has length 10 or 11; nothing else about the digits matters. -/
theorem C8_phone_iff (v : PyVal) :
    is_valid_phone v = Except.ok true ↔
      ∃ s, v = PyVal.str s ∧ s ≠ "" ∧
        ((s.toList.filter pyDigit).length = 10 ∨
         (s.toList.filter pyDigit).length = 11) := by
  cases v
  case str s =>
    rw [is_valid_phone_str]
    by_cases hs : s = ""
    · rw [if_pos hs]
      constructor
      · intro h; simp at h
      · rintro ⟨s2, heq, hne, -⟩
        injection heq with h2
        exact absurd (h2 ▸ hs) hne
    · rw [if_neg hs]
      constructor
      · intro h
        refine ⟨s, rfl, hs, ?_⟩
        have hb : ((s.toList.filter pyDigit).length == 10 ||
            (s.toList.filter pyDigit).length == 11) = true := by
          simpa using h
        simpa using hb
      · rintro ⟨s2, heq, -, hlen⟩
        injection heq with h2
        subst h2
        simp only [Except.ok.injEq]
        simpa using hlen
  all_goals
    constructor
    · intro h; simp [is_valid_phone] at h
    · rintro ⟨s, heq, -, -⟩; exact PyVal.noConfusion heq

/-- C9: the verdict of `is_valid_patient_data` never depends on the value
stored under `contact`, only on the key's presence: two records containing
`contact` and identical at every other key get the same verdict. -/
theorem C9_contact_noninterference (d1 d2 : List (String × PyVal))
    (h1 : pyDictContains d1 "contact" = true)
    (h2 : pyDictContains d2 "contact" = true)
    (h : ∀ k, k ≠ "contact" →
      d1.find? (fun kv => kv.1 == k) = d2.find? (fun kv => kv.1 == k)) :
    is_valid_patient_data (PyVal.dict d1) = is_valid_patient_data (PyVal.dict d2) := by
  have hname : pyDictContains d1 "name" = pyDictContains d2 "name" := by
    rw [pyDictContains_eq_isSome, pyDictContains_eq_isSome, h "name" (by decide)]
  have hage : pyDictContains d1 "age" = pyDictContains d2 "age" := by
    rw [pyDictContains_eq_isSome, pyDictContains_eq_isSome, h "age" (by decide)]
  have hgage : pyDictGet d1 "age" = pyDictGet d2 "age" := by
    unfold pyDictGet; rw [h "age" (by decide)]
  have hgname : pyDictGet d1 "name" = pyDictGet d2 "name" := by
    unfold pyDictGet; rw [h "name" (by decide)]
  rw [is_valid_patient_data_dict, is_valid_patient_data_dict,
    hname, hage, h1, h2, hgage, hgname]

/-- Witness for C9: two concrete patient records that differ only in the
value stored under `contact` (a text value versus an integer). -/
theorem C9_witness :
    pyDictContains [("contact", PyVal.str "x"), ("name", PyVal.str "Ana"),
      ("age", PyVal.int 30)] "contact" = true ∧
    pyDictContains [("contact", PyVal.int 0), ("name", PyVal.str "Ana"),
      ("age", PyVal.int 30)] "contact" = true ∧
    (∀ k, k ≠ "contact" →
      ([("contact", PyVal.str "x"), ("name", PyVal.str "Ana"),
        ("age", PyVal.int 30)] : List (String × PyVal)).find? (fun kv => kv.1 == k) =
      ([("contact", PyVal.int 0), ("name", PyVal.str "Ana"),
        ("age", PyVal.int 30)] : List (String × PyVal)).find? (fun kv => kv.1 == k)) ∧
    is_valid_patient_data (PyVal.dict [("contact", PyVal.str "x"),
      ("name", PyVal.str "Ana"), ("age", PyVal.int 30)]) =
    is_valid_patient_data (PyVal.dict [("contact", PyVal.int 0),
      ("name", PyVal.str "Ana"), ("age", PyVal.int 30)]) := by
  have h : ∀ k, k ≠ "contact" →
      ([("contact", PyVal.str "x"), ("name", PyVal.str "Ana"),
        ("age", PyVal.int 30)] : List (String × PyVal)).find? (fun kv => kv.1 == k) =
      ([("contact", PyVal.int 0), ("name", PyVal.str "Ana"),
        ("age", PyVal.int 30)] : List (String × PyVal)).find? (fun kv => kv.1 == k) := by
    intro k hk
    have hck : (("contact" : String) == k) = false := by
      cases hkk : ("contact" : String) == k
      · rfl
      · exact absurd (beq_iff_eq.mp hkk).symm hk
    simp [List.find?, hck]
  exact ⟨by decide, by decide, h,
    C9_contact_noninterference _ _ (by decide) (by decide) h⟩

/-- C10: a record whose `age` is the boolean `True` is accepted for any
non-empty text name and any contact value, because Python's `bool` passes
the `isinstance(_, int)` test and `True` compares greater than zero. -/
theorem C10_age_true_accepted (nm : String) (contact : PyVal) (h : nm ≠ "") :
    is_valid_patient_data (PyVal.dict
      [("name", PyVal.str nm), ("age", PyVal.bool true), ("contact", contact)]) =
      Except.ok true := by
  rw [is_valid_patient_data_dict]
  have hc : (pyDictContains [("name", PyVal.str nm), ("age", PyVal.bool true),
      ("contact", contact)] "name" &&
    pyDictContains [("name", PyVal.str nm), ("age", PyVal.bool true),
      ("contact", contact)] "age" &&
    pyDictContains [("name", PyVal.str nm), ("age", PyVal.bool true),
      ("contact", contact)] "contact") = true := rfl
  rw [if_pos hc]
  have hget_age : pyDictGet [("name", PyVal.str nm), ("age", PyVal.bool true),
      ("contact", contact)] "age" = Except.ok (PyVal.bool true) := rfl
  have hget_name : pyDictGet [("name", PyVal.str nm), ("age", PyVal.bool true),
      ("contact", contact)] "name" = Except.ok (PyVal.str nm) := rfl
  simp only [hget_age]
  rw [if_neg (by decide)]
  simp only [hget_name]
  have ht : truthy (PyVal.str nm) = true := by simp [truthy, h]
  rw [if_neg (by rw [ht]; simp [pyIsStr])]

/-- Witness for C10 at a concrete name and contact. -/
theorem C10_witness :
    ("John" : String) ≠ "" ∧
    is_valid_patient_data (PyVal.dict [("name", PyVal.str "John"),
      ("age", PyVal.bool true), ("contact", PyVal.none)]) = Except.ok true :=
  ⟨by decide, C10_age_true_accepted "John" PyVal.none (by decide)⟩

/-- C4: `is_valid_patient_data` accepts exactly the records that carry the
three keys `name`, `age`, `contact`, whose `age` value passes Python's
integer-type test with value strictly positive (so a digit string is
rejected), and whose `name` value is non-empty text; every non-record input
is rejected. -/
theorem C4_patient_iff (v : PyVal) :
    is_valid_patient_data v = Except.ok true ↔
      ∃ d, v = PyVal.dict d ∧
        pyDictContains d "name" = true ∧ pyDictContains d "age" = true ∧
        pyDictContains d "contact" = true ∧
        (∃ a, pyDictGet d "age" = Except.ok a ∧ pyIsInt a = true ∧ 0 < pyToInt a) ∧
        (∃ nm, pyDictGet d "name" = Except.ok (PyVal.str nm) ∧ nm ≠ "") := by
  cases v
  case dict d =>
    rw [is_valid_patient_data_dict]
    by_cases hn : pyDictContains d "name" = true
    · by_cases ha : pyDictContains d "age" = true
      · by_cases hc : pyDictContains d "contact" = true
        · rw [if_pos (by rw [hn, ha, hc]; rfl)]
          obtain ⟨age, hage⟩ := pyDictGet_ok_of_contains ha
          obtain ⟨nmv, hnmv⟩ := pyDictGet_ok_of_contains hn
          simp only [hage, hnmv]
          by_cases hbad : (!pyIsInt age || decide (pyToInt age ≤ 0)) = true
          · rw [if_pos hbad]
            constructor
            · intro hcontr; simp at hcontr
            · rintro ⟨d2, hd2, -, -, -, ⟨a, hga, hint, hpos⟩, -⟩
              injection hd2 with hd2e
              subst hd2e
              rw [hage] at hga
              injection hga with hae
              subst hae
              rw [hint] at hbad
              simp only [Bool.not_true, Bool.false_or, decide_eq_true_eq] at hbad
              omega
          · rw [if_neg hbad]
            have hint : pyIsInt age = true := by
              cases hia : pyIsInt age with
              | true => rfl
              | false => exact absurd (by rw [hia]; rfl) hbad
            have hpos : 0 < pyToInt age := by
              by_contra hle
              apply hbad
              rw [hint]
              simp only [Bool.not_true, Bool.false_or, decide_eq_true_eq]
              omega
            by_cases hbad2 : (!truthy nmv || !pyIsStr nmv) = true
            · rw [if_pos hbad2]
              constructor
              · intro hcontr; simp at hcontr
              · rintro ⟨d2, hd2, -, -, -, -, ⟨nm, hgn, hne⟩⟩
                injection hd2 with hd2e
                subst hd2e
                rw [hnmv] at hgn
                injection hgn with hge
                subst hge
                have ht : truthy (PyVal.str nm) = true := by simp [truthy, hne]
                rw [ht] at hbad2
                simp [pyIsStr] at hbad2
            · rw [if_neg hbad2]
              constructor
              · rintro -
                refine ⟨d, rfl, hn, ha, hc, ⟨age, hage, hint, hpos⟩, ?_⟩
                cases nmv with
                | str s =>
                  refine ⟨s, hnmv, ?_⟩
                  intro hse
                  apply hbad2
                  subst hse
                  rfl
                | none => exact absurd (by rfl) hbad2
                | bool b => exact absurd (by simp [pyIsStr]) hbad2
                | int n => exact absurd (by simp [pyIsStr]) hbad2
                | dict d2 => exact absurd (by simp [pyIsStr]) hbad2
                | list l2 => exact absurd (by simp [pyIsStr]) hbad2
              · rintro -
                rfl
        · rw [if_neg (by rw [Bool.eq_false_iff.mpr hc]; simp)]
          constructor
          · intro hcontr; simp at hcontr
          · rintro ⟨d2, hd2, -, -, hc2, -, -⟩
            injection hd2 with hd2e
            subst hd2e
            exact absurd hc2 hc
      · rw [if_neg (by rw [Bool.eq_false_iff.mpr ha]; simp)]
        constructor
        · intro hcontr; simp at hcontr
        · rintro ⟨d2, hd2, -, ha2, -, -, -⟩
          injection hd2 with hd2e
          subst hd2e
          exact absurd ha2 ha
    · rw [if_neg (by rw [Bool.eq_false_iff.mpr hn]; simp)]
      constructor
      · intro hcontr; simp at hcontr
      · rintro ⟨d2, hd2, hn2, -, -, -, -⟩
        injection hd2 with hd2e
        subst hd2e
        exact absurd hn2 hn
  all_goals
    constructor
    · intro h; simp [is_valid_patient_data] at h
    · rintro ⟨d, heq, -⟩; exact PyVal.noConfusion heq

/-- C7: `is_valid_appointment_data` accepts exactly the records carrying
`patient_id`, `date` and `time` whose date and time values, joined with one
space, pass `is_valid_appointment_time` — the record validator literally
composes the scalar one. -/
theorem C7_appointment_data_iff (v : PyVal) :
    is_valid_appointment_data v = Except.ok true ↔
      ∃ d, v = PyVal.dict d ∧
        pyDictContains d "patient_id" = true ∧ pyDictContains d "date" = true ∧
        pyDictContains d "time" = true ∧
        (∃ dv tv, pyDictGet d "date" = Except.ok dv ∧ pyDictGet d "time" = Except.ok tv ∧
          is_valid_appointment_time (PyVal.str (pyStr dv ++ " " ++ pyStr tv)) =
            Except.ok true) := by
  cases v
  case dict d =>
    rw [is_valid_appointment_data_dict]
    by_cases h1 : pyDictContains d "patient_id" = true
    · by_cases h2 : pyDictContains d "date" = true
      · by_cases h3 : pyDictContains d "time" = true
        · rw [if_pos (by rw [h1, h2, h3]; rfl)]
          obtain ⟨dv, hdv⟩ := pyDictGet_ok_of_contains h2
          obtain ⟨tv, htv⟩ := pyDictGet_ok_of_contains h3
          simp only [hdv, htv]
          constructor
          · intro hok
            exact ⟨d, rfl, h1, h2, h3, dv, tv, hdv, htv, hok⟩
          · rintro ⟨d2, hd2, -, -, -, dv2, tv2, hdv2, htv2, hok⟩
            injection hd2 with hde
            subst hde
            rw [hdv] at hdv2
            injection hdv2 with he1
            subst he1
            rw [htv] at htv2
            injection htv2 with he2
            subst he2
            exact hok
        · rw [if_neg (by rw [Bool.eq_false_iff.mpr h3]; simp)]
          constructor
          · intro hcontr; simp at hcontr
          · rintro ⟨d2, hd2, -, -, h32, -⟩
            injection hd2 with hde
            subst hde
            exact absurd h32 h3
      · rw [if_neg (by rw [Bool.eq_false_iff.mpr h2]; simp)]
        constructor
        · intro hcontr; simp at hcontr
        · rintro ⟨d2, hd2, -, h22, -, -⟩
          injection hd2 with hde
          subst hde
          exact absurd h22 h2
    · rw [if_neg (by rw [Bool.eq_false_iff.mpr h1]; simp)]
      constructor
      · intro hcontr; simp at hcontr
      · rintro ⟨d2, hd2, h12, -⟩
        injection hd2 with hde
        subst hde
        exact absurd h12 h1
  all_goals
    constructor
    · intro h; simp [is_valid_appointment_data] at h
    · rintro ⟨d, heq, -⟩; exact PyVal.noConfusion heq

/-! Email matcher characterizations. -/

theorem emailRegexMatch_some {l a r : List Char} (h : splitAtFirst '@' l = some (a, r)) :
    emailRegexMatch l = emailRest a r := by
  unfold emailRegexMatch; rw [h]

theorem emailRegexMatch_none {l : List Char} (h : splitAtFirst '@' l = Option.none) :
    emailRegexMatch l = false := by
  unfold emailRegexMatch; rw [h]

theorem emailRest_some {a r b t : List Char} (h : splitAtFirst '.' r = some (b, t)) :
    emailRest a r = emailTailOk a b t := by
  unfold emailRest; rw [h]

theorem emailRest_none {a r : List Char} (h : splitAtFirst '.' r = Option.none) :
    emailRest a r = false := by
  unfold emailRest; rw [h]

theorem emailStrictMatch_some {l a r : List Char} (h : splitAtFirst '@' l = some (a, r)) :
    emailStrictMatch l = emailStrictRest a r := by
  unfold emailStrictMatch; rw [h]

theorem emailStrictMatch_none {l : List Char} (h : splitAtFirst '@' l = Option.none) :
    emailStrictMatch l = false := by
  unfold emailStrictMatch; rw [h]

theorem emailStrictRest_some {a r b t : List Char} (h : splitAtFirst '.' r = some (b, t)) :
    emailStrictRest a r = emailStrictTailOk a b t := by
  unfold emailStrictRest; rw [h]

theorem emailStrictRest_none {a r : List Char} (h : splitAtFirst '.' r = Option.none) :
    emailStrictRest a r = false := by
  unfold emailStrictRest; rw [h]

theorem emailStrictMatch_iff (l : List Char) :
    emailStrictMatch l = true ↔ emailStrictLang l := by
  constructor
  · intro h
    cases hs1 : splitAtFirst '@' l with
    | none => rw [emailStrictMatch_none hs1] at h; cases h
    | some pr =>
      rcases pr with ⟨a, r⟩
      rw [emailStrictMatch_some hs1] at h
      cases hs2 : splitAtFirst '.' r with
      | none => rw [emailStrictRest_none hs2] at h; cases h
      | some pr2 =>
        rcases pr2 with ⟨b, t⟩
        rw [emailStrictRest_some hs2] at h
        unfold emailStrictTailOk at h
        simp only [Bool.and_eq_true, Bool.not_eq_true', List.isEmpty_eq_false,
          List.all_eq_true] at h
        rcases h with ⟨⟨⟨⟨⟨ha, halla⟩, hb⟩, hallb⟩, ht⟩, hallt⟩
        rcases splitAtFirst_eq_some hs1 with ⟨hl1, -⟩
        rcases splitAtFirst_eq_some hs2 with ⟨hl2, -⟩
        exact ⟨a, b, t, by rw [hl1, hl2], ha, halla, hb, hallb, ht, hallt⟩
  · rintro ⟨a, b, c, heq, ha, halla, hb, hallb, hc, hallc⟩
    subst heq
    rw [emailStrictMatch_some (splitAtFirst_of_eq a _
        (not_mem_of_all_class halla (by decide))),
      emailStrictRest_some (splitAtFirst_of_eq b _
        (not_mem_of_all_class hallb (by decide)))]
    unfold emailStrictTailOk
    simp only [Bool.and_eq_true, Bool.not_eq_true', List.isEmpty_eq_false,
      List.all_eq_true]
    exact ⟨⟨⟨⟨⟨ha, halla⟩, hb⟩, hallb⟩, hc⟩, hallc⟩

theorem emailRegexMatch_iff (l : List Char) :
    emailRegexMatch l = true ↔
      (emailStrictLang l ∨ ∃ t, l = t ++ ['\n'] ∧ emailStrictLang t) := by
  constructor
  · intro h
    cases hs1 : splitAtFirst '@' l with
    | none => rw [emailRegexMatch_none hs1] at h; cases h
    | some pr =>
      rcases pr with ⟨a, r⟩
      rw [emailRegexMatch_some hs1] at h
      cases hs2 : splitAtFirst '.' r with
      | none => rw [emailRest_none hs2] at h; cases h
      | some pr2 =>
        rcases pr2 with ⟨b, t⟩
        rw [emailRest_some hs2] at h
        unfold emailTailOk at h
        rcases splitAtFirst_eq_some hs1 with ⟨hl1, -⟩
        rcases splitAtFirst_eq_some hs2 with ⟨hl2, -⟩
        by_cases hlast : t.getLast? = some '\n'
        · rw [if_pos hlast] at h
          simp only [Bool.and_eq_true, Bool.not_eq_true', List.isEmpty_eq_false,
            List.all_eq_true] at h
          rcases h with ⟨⟨⟨⟨⟨ha, halla⟩, hb⟩, hallb⟩, ht⟩, hallt⟩
          have htl : t.dropLast ++ ['\n'] = t :=
            List.dropLast_append_getLast? '\n' (by rw [Option.mem_def, hlast])
          refine Or.inr ⟨a ++ '@' :: (b ++ '.' :: t.dropLast), ?_, a, b, t.dropLast,
            rfl, ha, halla, hb, hallb, ht, hallt⟩
          rw [hl1, hl2, ← htl]
          simp
        · rw [if_neg hlast] at h
          simp only [Bool.and_eq_true, Bool.not_eq_true', List.isEmpty_eq_false,
            List.all_eq_true] at h
          rcases h with ⟨⟨⟨⟨⟨ha, halla⟩, hb⟩, hallb⟩, ht⟩, hallt⟩
          exact Or.inl ⟨a, b, t, by rw [hl1, hl2], ha, halla, hb, hallb, ht, hallt⟩
  · rintro (⟨a, b, c, heq, ha, halla, hb, hallb, hc, hallc⟩ |
      ⟨t, hteq, a, b, c, heq, ha, halla, hb, hallb, hc, hallc⟩)
    · subst heq
      rw [emailRegexMatch_some (splitAtFirst_of_eq a _
          (not_mem_of_all_class halla (by decide))),
        emailRest_some (splitAtFirst_of_eq b _
          (not_mem_of_all_class hallb (by decide)))]
      unfold emailTailOk
      have hlast : ¬ c.getLast? = some '\n' := by
        intro hl
        rcases List.eq_nil_or_concat c with rfl | ⟨c2, x, hcx⟩
        · cases hl
        · rw [List.concat_eq_append] at hcx
          rw [hcx, List.getLast?_concat] at hl
          injection hl with hx
          have hxm : x ∈ c := by rw [hcx]; simp
          have hxc := hallc x hxm
          rw [hx] at hxc
          cases hxc
      rw [if_neg hlast]
      simp only [Bool.and_eq_true, Bool.not_eq_true', List.isEmpty_eq_false,
        List.all_eq_true]
      exact ⟨⟨⟨⟨⟨ha, halla⟩, hb⟩, hallb⟩, hc⟩, hallc⟩
    · subst heq
      have hl : l = a ++ '@' :: (b ++ '.' :: (c ++ ['\n'])) := by
        rw [hteq]; simp
      subst hl
      rw [emailRegexMatch_some (splitAtFirst_of_eq a _
          (not_mem_of_all_class halla (by decide))),
        emailRest_some (splitAtFirst_of_eq b _
          (not_mem_of_all_class hallb (by decide)))]
      unfold emailTailOk
      rw [if_pos (List.getLast?_concat c), List.dropLast_concat]
      simp only [Bool.and_eq_true, Bool.not_eq_true', List.isEmpty_eq_false,
        List.all_eq_true]
      exact ⟨⟨⟨⟨⟨ha, halla⟩, hb⟩, hallb⟩, hc⟩, hallc⟩

/-- Counterexample to C5 as stated: the code accepts the text
`"a@b.c\n"` — one trailing newline — although that string does not match
the claimed pattern anchored at both ends, because Python's `$` also
matches just before one final newline. -/
theorem C5_counterexample :
    is_valid_email (PyVal.str "a@b.c\n") = Except.ok true ∧
    ¬ emailStrictLang ("a@b.c\n".toList) := by
  constructor
  · rfl
  · intro h
    have hm := (emailStrictMatch_iff _).mpr h
    rw [show emailStrictMatch ("a@b.c\n".toList) = false from rfl] at hm
    cases hm

/-- C5 amended: `is_valid_email` accepts exactly the non-empty text values
that match the pattern — one or more characters of `[a-zA-Z0-9_.+-]`, `@`,
one or more of `[a-zA-Z0-9-]`, a literal dot, one or more of
`[a-zA-Z0-9-.]` — anchored at both ends except that one final newline may
follow (Python `re` `$` semantics); no other surrounding characters and no
second `@`. -/
theorem C5_email_amended (v : PyVal) :
    is_valid_email v = Except.ok true ↔
      ∃ s, v = PyVal.str s ∧ s ≠ "" ∧
        (emailStrictLang s.toList ∨
         ∃ t, s.toList = t ++ ['\n'] ∧ emailStrictLang t) := by
  cases v
  case str s =>
    rw [is_valid_email_str]
    by_cases hs : s = ""
    · rw [if_pos hs]
      constructor
      · intro h; simp at h
      · rintro ⟨s2, heq, hne, -⟩
        injection heq with h2
        exact absurd (h2 ▸ hs) hne
    · rw [if_neg hs]
      constructor
      · intro h
        have hm : emailRegexMatch s.toList = true := by simpa using h
        exact ⟨s, rfl, hs, (emailRegexMatch_iff _).mp hm⟩
      · rintro ⟨s2, heq, -, hlang⟩
        injection heq with h2
        subst h2
        simp only [Except.ok.injEq]
        exact (emailRegexMatch_iff _).mpr hlang
  all_goals
    constructor
    · intro h; simp [is_valid_email] at h
    · rintro ⟨s, heq, -⟩; exact PyVal.noConfusion heq

/-! Characterization of the strptime parser stages. -/

theorem strptimeHourSplit_cons {year mo dayVal : Nat} {ws hh : List Char}
    {sep : Char} {mi : List Char} :
    strptimeHourSplit year mo dayVal ws hh (sep :: mi) =
      (decide (sep = ':') && decide (1 ≤ ws.length) &&
       decide (1 ≤ hh.length) && decide (hh.length ≤ 2) && decide (digitsRunVal hh ≤ 23) &&
       mi.all pyDigit && decide (1 ≤ mi.length) && decide (mi.length ≤ 2) &&
       decide (digitsRunVal mi ≤ 59) &&
       decide (1 ≤ year) && decide (1 ≤ dayVal) && decide (dayVal ≤ daysInMonth year mo)) := rfl

theorem strptimeHourSplit_nil {year mo dayVal : Nat} {ws hh : List Char} :
    strptimeHourSplit year mo dayVal ws hh [] = false := rfl

theorem strptimeMonthSplit_cons {year : Nat} {mo : List Char} {sep : Char} {r3 : List Char} :
    strptimeMonthSplit year mo (sep :: r3) =
      (decide (sep = '-') && decide (1 ≤ mo.length) && decide (mo.length ≤ 2) &&
       decide (1 ≤ digitsRunVal mo) && decide (digitsRunVal mo ≤ 12) &&
       strptimeDay year (digitsRunVal mo) r3) := rfl

theorem strptimeMonthSplit_nil {year : Nat} {mo : List Char} :
    strptimeMonthSplit year mo [] = false := rfl

theorem strptimeDay_cons {year mo : Nat} {c1 : Char} {rest : List Char} :
    strptimeDay year mo (c1 :: rest) =
      (if c1 = ' ' then strptimeDaySpace year mo rest
       else
        decide (1 ≤ ((c1 :: rest).takeWhile pyDigit).length) &&
        decide (((c1 :: rest).takeWhile pyDigit).length ≤ 2) &&
        strptimeTail year mo (digitsRunVal ((c1 :: rest).takeWhile pyDigit))
          ((c1 :: rest).dropWhile pyDigit)) := rfl

theorem strptimeDay_nil {year mo : Nat} : strptimeDay year mo [] = false := rfl

theorem strptimeDaySpace_cons {year mo : Nat} {c : Char} {rest : List Char} :
    strptimeDaySpace year mo (c :: rest) =
      (if pyDigit c && decide (1 ≤ digitVal c) then
        strptimeTail year mo (digitVal c) rest
       else false) := rfl

theorem strptimeDaySpace_nil {year mo : Nat} : strptimeDaySpace year mo [] = false := rfl

theorem strptimeYmdHM_cons5 {y1 y2 y3 y4 sep : Char} {r1 : List Char} :
    strptimeYmdHM (y1 :: y2 :: y3 :: y4 :: sep :: r1) =
      (decide (sep = '-') &&
       pyDigit y1 && pyDigit y2 && pyDigit y3 && pyDigit y4 &&
       strptimeFromMonth (digitsRunVal [y1, y2, y3, y4]) r1) := rfl

theorem takeWhile_append_of_head {p : Char → Bool} (xs : List Char) {ys : List Char}
    (hxs : ∀ x ∈ xs, p x = true) (hys : ∃ c rest, ys = c :: rest ∧ p c = false) :
    (xs ++ ys).takeWhile p = xs ∧ (xs ++ ys).dropWhile p = ys := by
  rcases hys with ⟨c, rest, rfl, hc⟩
  exact takeWhile_append_stop xs c rest hxs hc

theorem strptimeTail_parts {year mo dayVal : Nat} {r4 : List Char}
    (h : strptimeTail year mo dayVal r4 = true) :
    ∃ ws hh mi : List Char, r4 = ws ++ (hh ++ ':' :: mi) ∧
      ws ≠ [] ∧ (∀ c ∈ ws, pyWhitespace c = true) ∧
      (hh.length = 1 ∨ hh.length = 2) ∧ (∀ c ∈ hh, pyDigit c = true) ∧
      digitsRunVal hh ≤ 23 ∧
      (mi.length = 1 ∨ mi.length = 2) ∧ (∀ c ∈ mi, pyDigit c = true) ∧
      digitsRunVal mi ≤ 59 ∧
      1 ≤ year ∧ 1 ≤ dayVal ∧ dayVal ≤ daysInMonth year mo := by
  unfold strptimeTail strptimeWsSplit at h
  cases hr6 : (r4.dropWhile pyWhitespace).dropWhile pyDigit with
  | nil => rw [hr6, strptimeHourSplit_nil] at h; cases h
  | cons sep mi =>
    rw [hr6, strptimeHourSplit_cons] at h
    simp only [Bool.and_eq_true, decide_eq_true_eq, List.all_eq_true] at h
    obtain ⟨⟨⟨⟨⟨⟨⟨⟨⟨⟨⟨hsep, hws1⟩, hh1⟩, hh2⟩, hhv⟩, hmiall⟩, hmi1⟩, hmi2⟩, hmiv⟩, hy⟩, hd1⟩, hd2⟩ := h
    subst hsep
    refine ⟨r4.takeWhile pyWhitespace, (r4.dropWhile pyWhitespace).takeWhile pyDigit, mi,
      ?_, ?_, fun c hc => List.mem_takeWhile_imp hc, by omega,
      fun c hc => List.mem_takeWhile_imp hc, hhv, by omega, hmiall, hmiv, hy, hd1, hd2⟩
    · have e2 : (r4.dropWhile pyWhitespace).takeWhile pyDigit ++ ':' :: mi =
          r4.dropWhile pyWhitespace := by
        rw [← hr6]
        exact List.takeWhile_append_dropWhile pyDigit (r4.dropWhile pyWhitespace)
      rw [e2]
      exact (List.takeWhile_append_dropWhile pyWhitespace r4).symm
    · intro hwsnil
      rw [hwsnil] at hws1
      simp at hws1

theorem strptimeTail_of_parts (year mo dayVal : Nat) (ws hh mi : List Char)
    (hws : ws ≠ []) (hallws : ∀ c ∈ ws, pyWhitespace c = true)
    (hh1 : hh.length = 1 ∨ hh.length = 2) (hallh : ∀ c ∈ hh, pyDigit c = true)
    (hhv : digitsRunVal hh ≤ 23)
    (hmi1 : mi.length = 1 ∨ mi.length = 2) (hallmi : ∀ c ∈ mi, pyDigit c = true)
    (hmiv : digitsRunVal mi ≤ 59)
    (hyear : 1 ≤ year) (hday1 : 1 ≤ dayVal) (hday2 : dayVal ≤ daysInMonth year mo) :
    strptimeTail year mo dayVal (ws ++ (hh ++ ':' :: mi)) = true := by
  rcases hh with _ | ⟨h1, hrest⟩
  · rcases hh1 with hh1 | hh1 <;> simp at hh1
  · have e1 := takeWhile_append_of_head ws hallws
      (show ∃ c rest, (h1 :: hrest) ++ ':' :: mi = c :: rest ∧ pyWhitespace c = false from
        ⟨h1, hrest ++ ':' :: mi, by simp,
          pyDigit_not_whitespace (hallh h1 (by simp))⟩)
    have e2 := takeWhile_append_stop (h1 :: hrest) ':' mi hallh (by decide)
    unfold strptimeTail strptimeWsSplit
    rw [e1.1, e1.2, e2.1, e2.2, strptimeHourSplit_cons]
    simp only [Bool.and_eq_true, decide_eq_true_eq, List.all_eq_true]
    have hwslen : 1 ≤ ws.length := List.length_pos.mpr hws
    have hhlen : 1 ≤ (h1 :: hrest).length := by simp
    have hhlen2 : (h1 :: hrest).length ≤ 2 := by omega
    have hmilen1 : 1 ≤ mi.length := by omega
    have hmilen2 : mi.length ≤ 2 := by omega
    exact ⟨⟨⟨⟨⟨⟨⟨⟨⟨⟨⟨trivial, hwslen⟩, hhlen⟩, hhlen2⟩, hhv⟩, hallmi⟩, hmilen1⟩, hmilen2⟩,
      hmiv⟩, hyear⟩, hday1⟩, hday2⟩

theorem strptimeDay_parts {year mo : Nat} {r3 : List Char}
    (h : strptimeDay year mo r3 = true) :
    ∃ dpart ws hh mi : List Char, r3 = dpart ++ (ws ++ (hh ++ ':' :: mi)) ∧
      dayFieldLang year mo dpart ∧
      ws ≠ [] ∧ (∀ c ∈ ws, pyWhitespace c = true) ∧
      (hh.length = 1 ∨ hh.length = 2) ∧ (∀ c ∈ hh, pyDigit c = true) ∧
      digitsRunVal hh ≤ 23 ∧
      (mi.length = 1 ∨ mi.length = 2) ∧ (∀ c ∈ mi, pyDigit c = true) ∧
      digitsRunVal mi ≤ 59 ∧ 1 ≤ year := by
  rcases r3 with _ | ⟨c1, rest⟩
  · rw [strptimeDay_nil] at h; cases h
  · rw [strptimeDay_cons] at h
    by_cases hc1 : c1 = ' '
    · rw [if_pos hc1] at h
      subst hc1
      rcases rest with _ | ⟨c, rest2⟩
      · rw [strptimeDaySpace_nil] at h; cases h
      · rw [strptimeDaySpace_cons] at h
        by_cases hcd : (pyDigit c && decide (1 ≤ digitVal c)) = true
        · rw [if_pos hcd] at h
          simp only [Bool.and_eq_true, decide_eq_true_eq] at hcd
          obtain ⟨hcdig, hc1le⟩ := hcd
          obtain ⟨ws, hh, mi, heq, hws, hallws, hh1, hallh, hhv, hmi1, hallmi, hmiv,
            hy, hd1, hd2⟩ := strptimeTail_parts h
          refine ⟨[' ', c], ws, hh, mi, ?_, Or.inr ⟨c, rfl, hcdig, hc1le, hd2⟩,
            hws, hallws, hh1, hallh, hhv, hmi1, hallmi, hmiv, hy⟩
          rw [heq]
          rfl
        · rw [if_neg hcd] at h; cases h
    · rw [if_neg hc1] at h
      simp only [Bool.and_eq_true, decide_eq_true_eq] at h
      obtain ⟨⟨hlen1, hlen2⟩, htail⟩ := h
      obtain ⟨ws, hh, mi, heq, hws, hallws, hh1, hallh, hhv, hmi1, hallmi, hmiv,
        hy, hd1, hd2⟩ := strptimeTail_parts htail
      refine ⟨(c1 :: rest).takeWhile pyDigit, ws, hh, mi, ?_, ?_,
        hws, hallws, hh1, hallh, hhv, hmi1, hallmi, hmiv, hy⟩
      · rw [← heq]
        exact (List.takeWhile_append_dropWhile pyDigit (c1 :: rest)).symm
      · exact Or.inl ⟨by omega, fun c hc => List.mem_takeWhile_imp hc, hd1, hd2⟩

theorem strptimeDay_of_parts (year mo : Nat) (dpart ws hh mi : List Char)
    (hday : dayFieldLang year mo dpart)
    (hws : ws ≠ []) (hallws : ∀ c ∈ ws, pyWhitespace c = true)
    (hh1 : hh.length = 1 ∨ hh.length = 2) (hallh : ∀ c ∈ hh, pyDigit c = true)
    (hhv : digitsRunVal hh ≤ 23)
    (hmi1 : mi.length = 1 ∨ mi.length = 2) (hallmi : ∀ c ∈ mi, pyDigit c = true)
    (hmiv : digitsRunVal mi ≤ 59) (hyear : 1 ≤ year) :
    strptimeDay year mo (dpart ++ (ws ++ (hh ++ ':' :: mi))) = true := by
  rcases hday with ⟨hdl, hdall, hdv1, hdv2⟩ | ⟨c, rfl, hcdig, hc1, hc2⟩
  · have htail := strptimeTail_of_parts year mo (digitsRunVal dpart) ws hh mi hws
      hallws hh1 hallh hhv hmi1 hallmi hmiv hyear hdv1 hdv2
    rcases ws with _ | ⟨w, ws2⟩
    · exact absurd rfl hws
    have hwnd : pyDigit w = false := pyWhitespace_not_digit (hallws w (by simp))
    rcases hdl with h1 | h2
    · obtain ⟨d1, rfl⟩ := List.length_eq_one.mp h1
      have hd1dig : pyDigit d1 = true := hdall d1 (by simp)
      have estop := takeWhile_append_stop [d1] w (ws2 ++ (hh ++ ':' :: mi))
        (by intro x hx; simp at hx; rw [hx]; exact hd1dig) hwnd
      rw [show ([d1] : List Char) ++ ((w :: ws2) ++ (hh ++ ':' :: mi)) =
        d1 :: ((w :: ws2) ++ (hh ++ ':' :: mi)) from rfl]
      rw [strptimeDay_cons, if_neg (pyDigit_ne hd1dig (by decide))]
      rw [show d1 :: ((w :: ws2) ++ (hh ++ ':' :: mi)) =
        [d1] ++ (w :: (ws2 ++ (hh ++ ':' :: mi))) from by simp]
      rw [estop.1, estop.2]
      simp only [Bool.and_eq_true, decide_eq_true_eq]
      refine ⟨⟨by simp, by simp⟩, ?_⟩
      rw [show w :: (ws2 ++ (hh ++ ':' :: mi)) =
        (w :: ws2) ++ (hh ++ ':' :: mi) from by simp]
      exact htail
    · obtain ⟨d1, d2, rfl⟩ := List.length_eq_two.mp h2
      have hd1dig : pyDigit d1 = true := hdall d1 (by simp)
      have hd2dig : pyDigit d2 = true := hdall d2 (by simp)
      have estop := takeWhile_append_stop [d1, d2] w (ws2 ++ (hh ++ ':' :: mi))
        (by intro x hx; simp at hx; rcases hx with rfl | rfl
            · exact hd1dig
            · exact hd2dig) hwnd
      rw [show ([d1, d2] : List Char) ++ ((w :: ws2) ++ (hh ++ ':' :: mi)) =
        d1 :: (d2 :: ((w :: ws2) ++ (hh ++ ':' :: mi))) from rfl]
      rw [strptimeDay_cons, if_neg (pyDigit_ne hd1dig (by decide))]
      rw [show d1 :: (d2 :: ((w :: ws2) ++ (hh ++ ':' :: mi))) =
        [d1, d2] ++ (w :: (ws2 ++ (hh ++ ':' :: mi))) from by simp]
      rw [estop.1, estop.2]
      simp only [Bool.and_eq_true, decide_eq_true_eq]
      refine ⟨⟨by simp, by simp⟩, ?_⟩
      rw [show w :: (ws2 ++ (hh ++ ':' :: mi)) =
        (w :: ws2) ++ (hh ++ ':' :: mi) from by simp]
      exact htail
  · rw [show ([' ', c] : List Char) ++ (ws ++ (hh ++ ':' :: mi)) =
      ' ' :: (c :: (ws ++ (hh ++ ':' :: mi))) from rfl]
    rw [strptimeDay_cons, if_pos rfl, strptimeDaySpace_cons]
    rw [if_pos (show (pyDigit c && decide (1 ≤ digitVal c)) = true by
      rw [hcdig]; simpa using hc1)]
    exact strptimeTail_of_parts year mo (digitVal c) ws hh mi hws hallws hh1 hallh
      hhv hmi1 hallmi hmiv hyear hc1 hc2

theorem strptimeYmdHM_iff (l : List Char) :
    strptimeYmdHM l = true ↔ apptTimeLang l := by
  constructor
  · intro h
    rcases l with _ | ⟨y1, l⟩
    · rw [show strptimeYmdHM [] = false from rfl] at h; cases h
    rcases l with _ | ⟨y2, l⟩
    · rw [show strptimeYmdHM [y1] = false from rfl] at h; cases h
    rcases l with _ | ⟨y3, l⟩
    · rw [show strptimeYmdHM [y1, y2] = false from rfl] at h; cases h
    rcases l with _ | ⟨y4, l⟩
    · rw [show strptimeYmdHM [y1, y2, y3] = false from rfl] at h; cases h
    rcases l with _ | ⟨sep, r1⟩
    · rw [show strptimeYmdHM [y1, y2, y3, y4] = false from rfl] at h; cases h
    rw [strptimeYmdHM_cons5] at h
    simp only [Bool.and_eq_true, decide_eq_true_eq] at h
    obtain ⟨⟨⟨⟨⟨hsep, hy1⟩, hy2⟩, hy3⟩, hy4⟩, hmon⟩ := h
    subst hsep
    unfold strptimeFromMonth at hmon
    cases hdrop : r1.dropWhile pyDigit with
    | nil => rw [hdrop, strptimeMonthSplit_nil] at hmon; cases hmon
    | cons sep2 r3 =>
      rw [hdrop, strptimeMonthSplit_cons] at hmon
      simp only [Bool.and_eq_true, decide_eq_true_eq] at hmon
      obtain ⟨⟨⟨⟨⟨hsep2, hmo1⟩, hmo2⟩, hmv1⟩, hmv2⟩, hday⟩ := hmon
      subst hsep2
      obtain ⟨dpart, ws, hh, mi, heq3, hdayl, hwsne, hwsall, hhl, hhdig, hhv,
        hmil, hmidig, hmiv, hyval⟩ := strptimeDay_parts hday
      have hr1 : r1 = r1.takeWhile pyDigit ++ ('-' :: r3) := by
        rw [← hdrop]
        exact (List.takeWhile_append_dropWhile pyDigit r1).symm
      refine ⟨[y1, y2, y3, y4], r1.takeWhile pyDigit, dpart, ws, hh, mi, ?_,
        rfl, ?_, hyval, by omega, fun c hc => List.mem_takeWhile_imp hc,
        hmv1, hmv2, hdayl, hwsne, hwsall, hhl, hhdig, hhv, hmil, hmidig, hmiv⟩
      · rw [show ([y1, y2, y3, y4] : List Char) ++
          '-' :: (r1.takeWhile pyDigit ++ '-' :: (dpart ++ (ws ++ (hh ++ ':' :: mi)))) =
          y1 :: y2 :: y3 :: y4 ::
            '-' :: (r1.takeWhile pyDigit ++ '-' :: (dpart ++ (ws ++ (hh ++ ':' :: mi)))) from rfl]
        rw [← heq3, ← hr1]
      · intro c hc
        simp at hc
        rcases hc with rfl | rfl | rfl | rfl <;> assumption
  · rintro ⟨y, mo, dpart, ws, hh, mi, heq, hy4, hydig, hyval, hmol, hmodig,
      hmv1, hmv2, hdayl, hwsne, hwsall, hhl, hhdig, hhv, hmil, hmidig, hmiv⟩
    subst heq
    rcases y with _ | ⟨c1, y⟩
    · simp at hy4
    rcases y with _ | ⟨c2, y⟩
    · simp at hy4
    rcases y with _ | ⟨c3, y⟩
    · simp at hy4
    rcases y with _ | ⟨c4, y⟩
    · simp at hy4
    rcases y with _ | ⟨c5, y⟩
    · simp only [List.cons_append, List.nil_append]
      rw [strptimeYmdHM_cons5]
      simp only [Bool.and_eq_true, decide_eq_true_eq]
      refine ⟨⟨⟨⟨⟨trivial, hydig c1 (by simp)⟩, hydig c2 (by simp)⟩,
        hydig c3 (by simp)⟩, hydig c4 (by simp)⟩, ?_⟩
      unfold strptimeFromMonth
      have estop := takeWhile_append_stop mo '-' (dpart ++ (ws ++ (hh ++ ':' :: mi)))
        hmodig (by decide)
      rw [estop.1, estop.2, strptimeMonthSplit_cons]
      simp only [Bool.and_eq_true, decide_eq_true_eq]
      have hmolen : 1 ≤ mo.length := by rcases hmol with h | h <;> omega
      have hmolen2 : mo.length ≤ 2 := by rcases hmol with h | h <;> omega
      refine ⟨⟨⟨⟨⟨trivial, hmolen⟩, hmolen2⟩, hmv1⟩, hmv2⟩, ?_⟩
      exact strptimeDay_of_parts _ _ dpart ws hh mi hdayl hwsne hwsall
        hhl hhdig hhv hmil hmidig hmiv hyval
    · simp at hy4

/-- Counterexample to C2 as stated: the code accepts a single-digit month —
`"2025-1-15 14:30"` parses under `strptime('%Y-%m-%d %H:%M')` because the
compiled `%m` group `1[0-2]|0[1-9]|[1-9]` also accepts one digit — although
that string does not have the claimed exact `YYYY-MM-DD HH:MM` shape with a
2-digit month. -/
theorem C2_counterexample :
    is_valid_appointment_time (PyVal.str "2025-1-15 14:30") = Except.ok true ∧
    claimApptFormat "2025-1-15 14:30" = false := ⟨rfl, rfl⟩

/-- C2 amended: `is_valid_appointment_time` accepts exactly the non-empty
text values of the shape — exactly 4 digits of year with value at least 1,
`-`, a 1-or-2-digit month 1..12, `-`, a day written either as a 1-or-2-digit
number or as one space followed by one nonzero digit and lying within that
month's length, one or more whitespace characters, a 1-or-2-digit hour
0..23, `:`, and a 1-or-2-digit minute 0..59, with nothing else before or
after; every parse failure, including calendar-impossible dates and
non-text input, yields false. -/
theorem C2_appointment_time_amended (v : PyVal) :
    is_valid_appointment_time v = Except.ok true ↔
      ∃ s, v = PyVal.str s ∧ s ≠ "" ∧ apptTimeLang s.toList := by
  cases v
  case str s =>
    rw [is_valid_appointment_time_str]
    by_cases hs : s = ""
    · rw [if_pos hs]
      constructor
      · intro h; simp at h
      · rintro ⟨s2, heq, hne, -⟩
        injection heq with h2
        exact absurd (h2 ▸ hs) hne
    · rw [if_neg hs]
      constructor
      · intro h
        exact ⟨s, rfl, hs, (strptimeYmdHM_iff _).mp (by simpa using h)⟩
      · rintro ⟨s2, heq, -, hlang⟩
        injection heq with h2
        subst h2
        simp only [Except.ok.injEq]
        exact (strptimeYmdHM_iff _).mpr hlang
  all_goals
    constructor
    · intro h; simp [is_valid_appointment_time] at h
    · rintro ⟨s, heq, -⟩; exact PyVal.noConfusion heq
